import Mathlib

/-!
Verification development for the immer persistent vector library,
file src/immer/flex_vector.hpp.

The public container flex_vector is a thin wrapper around the core tree
type detail::rbts::rrbtree (declared in immer/detail/rbts/rrbtree.hpp,
which is not among the sources under inspection).  The wrapper layer is
embedded directly from flex_vector.hpp; the missing core is modelled
from the specification, at the granularity the specification fixes for
the externally observable interface: sizes and element values.
-/

namespace Immer

/-- Modelled from the spec: the core type detail::rbts::rrbtree of
immer/detail/rbts/rrbtree.hpp is not among the sources; only its wrapper
flex_vector.hpp is.  Section 3 of the specification describes the tree
handle as a record of size, shift, root and tail, where tail is a leaf
holding the suffix of elements not yet pushed into root, and size always
equals the total element count of root plus tail.  We model the root
subtree by the ordered sequence of elements stored in it, in
left-to-right leaf order, and keep the tail buffer explicit.  L is the
leaf capacity (two to the power BL in the configuration).  The shift
field and the interior tree shape only determine complexity, never the
values observable through the public interface, so they are abstracted
away; size is recovered from the invariant rather than cached. -/
structure rrbtree (α : Type) (L : Nat) where
  root : List α
  tail : List α

namespace rrbtree

variable {α : Type} {L : Nat}

/-- Modelled from the spec: the static member impl_t::empty used by the
default constructed wrapper, a tree of size zero (empty root, empty tail). -/
def empty : rrbtree α L := ⟨[], []⟩

/-- Modelled from the spec: size always equals total elements in root
plus tail (section 3, tree handle invariant). -/
def size (t : rrbtree α L) : Nat :=
  t.root.length + t.tail.length

/-- Modelled from the spec, section 4.1 lookup: if the index falls within
the element range of the tail (the suffix), return directly from the
tail; otherwise descend from the root.  Partiality (the precondition
index < size) is rendered by an Option result. -/
def get (t : rrbtree α L) (i : Nat) : Option α :=
  if t.root.length ≤ i then t.tail[i - t.root.length]? else t.root[i]?

/-- Modelled from the spec, section 4.3 tail-assisted append: if the tail
has room, append to the tail; else flush the current tail into the root
and start a new one-element tail. -/
def push_back (t : rrbtree α L) (v : α) : rrbtree α L :=
  if t.tail.length < L then ⟨t.root, t.tail ++ [v]⟩
  else ⟨t.root ++ t.tail, [v]⟩

/-- Modelled from the spec, section 4.2 path-copy update: the result
holds the replacement value at the given index and is otherwise
unchanged; the copied path only affects sharing, not contents. -/
def assoc (t : rrbtree α L) (i : Nat) (v : α) : rrbtree α L :=
  if i < t.root.length then ⟨t.root.set i v, t.tail⟩
  else ⟨t.root, t.tail.set (i - t.root.length) v⟩

/-- Modelled from the spec, section 4.5 slicing: take n discards all
elements at index at least n (clamping at the size); the tail of the
result is recomputed, which we render by returning everything in root. -/
def take (t : rrbtree α L) (n : Nat) : rrbtree α L :=
  ⟨(t.root ++ t.tail).take n, []⟩

/-- Modelled from the spec, section 4.5 slicing: drop n discards the left
side and keeps the right, clamping at the size. -/
def drop (t : rrbtree α L) (n : Nat) : rrbtree α L :=
  ⟨(t.root ++ t.tail).drop n, []⟩

/-- Modelled from the spec, section 4.4 concatenation: flush both tails
into their roots first; if either side is empty, return the other;
otherwise the result holds the contents of the left tree followed by
those of the right. -/
def concat (l r : rrbtree α L) : rrbtree α L :=
  if l.size = 0 then r
  else if r.size = 0 then l
  else ⟨(l.root ++ l.tail) ++ (r.root ++ r.tail), []⟩

/-- Observation function: the element sequence of a tree, root contents
followed by the tail suffix (section 3, tail invariant). -/
def elems (t : rrbtree α L) : List α :=
  t.root ++ t.tail

end rrbtree

/-- The public wrapper class flex_vector of src/immer/flex_vector.hpp:
it owns a single field impl_ of the core tree type (line 259).  The
template parameters T, B, BL are rendered by the type parameter and the
leaf capacity L; the memory policy only governs allocation and reference
counting and has no counterpart in the value-level model. -/
structure flex_vector (α : Type) (L : Nat) where
  impl_ : rrbtree α L

namespace flex_vector

variable {α : Type} {L : Nat}

/-- The default constructor, flex_vector.hpp line 98: it creates a
flex_vector of size 0; the member initializer at line 259 sets impl_ to
impl_t::empty. -/
def emptyVec : flex_vector α L := ⟨rrbtree.empty⟩

/-- size, flex_vector.hpp line 141: return impl_.size. -/
def size (v : flex_vector α L) : Nat := v.impl_.size

/-- empty, flex_vector.hpp line 147: return impl_.size == 0. -/
def empty (v : flex_vector α L) : Bool := v.impl_.size == 0

/-- Element access operator, flex_vector.hpp lines 155 to 156: return
impl_.get(index); undefined for index at or beyond the size, rendered by
the Option result of the modelled get. -/
def get (v : flex_vector α L) (i : Nat) : Option α := v.impl_.get i

/-- push_back, flex_vector.hpp lines 162 to 163: return a vector built
from impl_.push_back(value). -/
def push_back (v : flex_vector α L) (x : α) : flex_vector α L :=
  ⟨v.impl_.push_back x⟩

/-- set, flex_vector.hpp lines 178 to 179: return a vector built from
impl_.assoc(index, value). -/
def set (v : flex_vector α L) (i : Nat) (x : α) : flex_vector α L :=
  ⟨v.impl_.assoc i x⟩

/-- take, flex_vector.hpp lines 197 to 198: return a vector built from
impl_.take(elems). -/
def take (v : flex_vector α L) (n : Nat) : flex_vector α L :=
  ⟨v.impl_.take n⟩

/-- drop, flex_vector.hpp lines 205 to 206: return a vector built from
impl_.drop(elems). -/
def drop (v : flex_vector α L) (n : Nat) : flex_vector α L :=
  ⟨v.impl_.drop n⟩

/-- The concatenation operator, flex_vector.hpp lines 231 to 232: return
a vector built from l.impl_.concat(r.impl_). -/
def add (l r : flex_vector α L) : flex_vector α L :=
  ⟨l.impl_.concat r.impl_⟩

instance : Add (flex_vector α L) := ⟨add⟩

/-- push_front, flex_vector.hpp lines 169 to 170: return
flex_vector{}.push_back(value) + *this. -/
def push_front (v : flex_vector α L) (x : α) : flex_vector α L :=
  (emptyVec.push_back x) + v

/-- Observation function: the element sequence of the wrapped tree. -/
def elems (v : flex_vector α L) : List α := v.impl_.elems

end flex_vector

namespace rrbtree

variable {α : Type} {L : Nat}

theorem size_eq_length_elems (t : rrbtree α L) : t.size = t.elems.length := by
  simp [size, elems]

theorem get_eq_getElem (t : rrbtree α L) (i : Nat) : t.get i = t.elems[i]? := by
  unfold get elems
  by_cases h : t.root.length ≤ i
  · rw [if_pos h, List.getElem?_append_right h]
  · rw [if_neg h, List.getElem?_append_left (Nat.lt_of_not_le h)]

theorem elems_eq_nil_of_size (t : rrbtree α L) (h : t.size = 0) : t.elems = [] := by
  have hl : t.elems.length = 0 := by rw [← size_eq_length_elems]; exact h
  exact List.length_eq_zero.mp hl

theorem concat_elems (l r : rrbtree α L) : (l.concat r).elems = l.elems ++ r.elems := by
  unfold concat
  by_cases hl : l.size = 0
  · rw [if_pos hl, elems_eq_nil_of_size l hl, List.nil_append]
  · rw [if_neg hl]
    by_cases hr : r.size = 0
    · rw [if_pos hr, elems_eq_nil_of_size r hr, List.append_nil]
    · rw [if_neg hr]
      simp [elems]

theorem push_back_elems (t : rrbtree α L) (v : α) :
    (t.push_back v).elems = t.elems ++ [v] := by
  unfold push_back
  by_cases h : t.tail.length < L
  · rw [if_pos h]; simp [elems]
  · rw [if_neg h]; simp [elems]

theorem assoc_elems (t : rrbtree α L) (i : Nat) (v : α) :
    (t.assoc i v).elems = t.elems.set i v := by
  unfold assoc elems
  by_cases h : i < t.root.length
  · rw [if_pos h, List.set_append_left _ _ h]
  · rw [if_neg h, List.set_append_right _ _ (Nat.le_of_not_lt h)]

theorem take_elems (t : rrbtree α L) (n : Nat) :
    (t.take n).elems = t.elems.take n := by
  simp [take, elems]

theorem drop_elems (t : rrbtree α L) (n : Nat) :
    (t.drop n).elems = t.elems.drop n := by
  simp [drop, elems]

theorem empty_elems : (empty : rrbtree α L).elems = [] := rfl

end rrbtree

namespace flex_vector

variable {α : Type} {L : Nat}

theorem size_eq (v : flex_vector α L) : v.size = v.elems.length :=
  rrbtree.size_eq_length_elems v.impl_

theorem get_eq (v : flex_vector α L) (i : Nat) : v.get i = v.elems[i]? :=
  rrbtree.get_eq_getElem v.impl_ i

theorem elems_add (l r : flex_vector α L) : (l + r).elems = l.elems ++ r.elems :=
  rrbtree.concat_elems l.impl_ r.impl_

theorem elems_push_back (v : flex_vector α L) (x : α) :
    (v.push_back x).elems = v.elems ++ [x] :=
  rrbtree.push_back_elems v.impl_ x

theorem elems_set (v : flex_vector α L) (i : Nat) (x : α) :
    (v.set i x).elems = v.elems.set i x :=
  rrbtree.assoc_elems v.impl_ i x

theorem elems_take (v : flex_vector α L) (n : Nat) :
    (v.take n).elems = v.elems.take n :=
  rrbtree.take_elems v.impl_ n

theorem elems_drop (v : flex_vector α L) (n : Nat) :
    (v.drop n).elems = v.elems.drop n :=
  rrbtree.drop_elems v.impl_ n

theorem elems_emptyVec : (emptyVec : flex_vector α L).elems = [] := rfl

theorem elems_push_front (v : flex_vector α L) (x : α) :
    (v.push_front x).elems = x :: v.elems := by
  unfold push_front
  rw [elems_add, elems_push_back, elems_emptyVec]
  rfl

theorem elems_foldl_push_back (xs : List α) (v : flex_vector α L) :
    (xs.foldl push_back v).elems = v.elems ++ xs := by
  induction xs generalizing v with
  | nil => simp
  | cons x xs ih =>
      rw [List.foldl_cons, ih, elems_push_back, List.append_assoc]
      rfl

end flex_vector

section Claims

open flex_vector

variable {α : Type} {L : Nat}

/-- C1: for every flex_vector V and every n with 0 ≤ n ≤ V.size, the
concatenation V.take n + V.drop n yields a sequence element-wise equal
to V: it has the same size and the same element at every index. -/
theorem C1_take_drop_concat_original (V : flex_vector α L) (n : Nat)
    (_h : n ≤ V.size) :
    (V.take n + V.drop n).size = V.size ∧
    ∀ i : Nat, (V.take n + V.drop n).get i = V.get i := by
  have he : (V.take n + V.drop n).elems = V.elems := by
    rw [elems_add, elems_take, elems_drop, List.take_append_drop]
  exact ⟨by rw [size_eq, size_eq, he], fun i => by rw [get_eq, get_eq, he]⟩

/-- Witness for C1 at the concrete vector with elements 10, 20, 30 (two in
the root, one in the tail) and n = 2. -/
theorem C1_take_drop_concat_original_witness :
    ((⟨⟨[10, 20], [30]⟩⟩ : flex_vector Nat 2).take 2 +
      (⟨⟨[10, 20], [30]⟩⟩ : flex_vector Nat 2).drop 2).size =
      (⟨⟨[10, 20], [30]⟩⟩ : flex_vector Nat 2).size ∧
    ((⟨⟨[10, 20], [30]⟩⟩ : flex_vector Nat 2).take 2 +
      (⟨⟨[10, 20], [30]⟩⟩ : flex_vector Nat 2).drop 2).get 2 =
      (⟨⟨[10, 20], [30]⟩⟩ : flex_vector Nat 2).get 2 := by
  have h := C1_take_drop_concat_original
    (⟨⟨[10, 20], [30]⟩⟩ : flex_vector Nat 2) 2 (by decide)
  exact ⟨h.1, h.2 2⟩

/-- C2: for every flex_vector V, index i < V.size and value v, the result
W = V.set i v satisfies W.get i = v, and W.get j = V.get j for every
index j different from i with j < V.size. -/
theorem C2_set_get_consistency (V : flex_vector α L) (i : Nat) (v : α)
    (h : i < V.size) :
    (V.set i v).get i = some v ∧
    ∀ j : Nat, j ≠ i → j < V.size → (V.set i v).get j = V.get j := by
  have hi : i < V.elems.length := by rw [← size_eq]; exact h
  constructor
  · rw [get_eq, elems_set, List.getElem?_set_self hi]
  · intro j hji _
    rw [get_eq, get_eq, elems_set, List.getElem?_set_ne (Ne.symm hji)]

/-- Witness for C2 at the concrete vector with elements 5, 6, 7, index 1
and value 9. -/
theorem C2_set_get_consistency_witness :
    ((⟨⟨[5, 6], [7]⟩⟩ : flex_vector Nat 2).set 1 9).get 1 = some 9 ∧
    ((⟨⟨[5, 6], [7]⟩⟩ : flex_vector Nat 2).set 1 9).get 2 =
      (⟨⟨[5, 6], [7]⟩⟩ : flex_vector Nat 2).get 2 := by
  have h := C2_set_get_consistency
    (⟨⟨[5, 6], [7]⟩⟩ : flex_vector Nat 2) 1 9 (by decide)
  exact ⟨h.1, h.2 2 (by decide) (by decide)⟩

/-- C3: for every pair of flex_vectors l and r, the concatenation l + r
has size exactly l.size + r.size. -/
theorem C3_concat_size (l r : flex_vector α L) :
    (l + r).size = l.size + r.size := by
  rw [size_eq, size_eq, size_eq, elems_add, List.length_append]

/-- C4: concatenation is associative on content: for all flex_vectors
A, B, C the sequences (A + B) + C and A + (B + C) have the same size and
identical elements at every index. -/
theorem C4_concat_assoc_content (A B C : flex_vector α L) :
    ((A + B) + C).size = (A + (B + C)).size ∧
    ∀ i : Nat, ((A + B) + C).get i = (A + (B + C)).get i := by
  have he : ((A + B) + C).elems = (A + (B + C)).elems := by
    rw [elems_add, elems_add, elems_add, elems_add, List.append_assoc]
  exact ⟨by rw [size_eq, size_eq, he], fun i => by rw [get_eq, get_eq, he]⟩

/-- C5: the empty flex_vector is a two-sided identity for concatenation:
both emptyVec + V and V + emptyVec have the size of V and the same
element at every index. -/
theorem C5_empty_identity (V : flex_vector α L) :
    ((emptyVec + V).size = V.size ∧ ∀ i : Nat, (emptyVec + V).get i = V.get i) ∧
    ((V + emptyVec).size = V.size ∧ ∀ i : Nat, (V + emptyVec).get i = V.get i) := by
  have hl : (emptyVec + V).elems = V.elems := by
    rw [elems_add, elems_emptyVec, List.nil_append]
  have hr : (V + emptyVec).elems = V.elems := by
    rw [elems_add, elems_emptyVec, List.append_nil]
  exact ⟨⟨by rw [size_eq, size_eq, hl], fun i => by rw [get_eq, get_eq, hl]⟩,
         ⟨by rw [size_eq, size_eq, hr], fun i => by rw [get_eq, get_eq, hr]⟩⟩

/-- C6: for every flex_vector V and value x, V.push_front x equals the
concatenation of a one-element vector holding x with V: its size is
V.size + 1, its element at index 0 is x, and its element at index i + 1
is the element of V at index i for every i < V.size. -/
theorem C6_push_front_spec (V : flex_vector α L) (x : α) :
    V.push_front x = (emptyVec.push_back x) + V ∧
    (V.push_front x).size = V.size + 1 ∧
    (V.push_front x).get 0 = some x ∧
    ∀ i : Nat, i < V.size → (V.push_front x).get (i + 1) = V.get i := by
  refine ⟨rfl, ?_, ?_, ?_⟩
  · rw [size_eq, size_eq, elems_push_front, List.length_cons]
  · rw [get_eq, elems_push_front]; simp
  · intro i _
    rw [get_eq, get_eq, elems_push_front, List.getElem?_cons_succ]

/-- Witness for C6 at the concrete vector with elements 4, 5 and pushed
value 3. -/
theorem C6_push_front_spec_witness :
    ((⟨⟨[4], [5]⟩⟩ : flex_vector Nat 2).push_front 3).size = 3 ∧
    ((⟨⟨[4], [5]⟩⟩ : flex_vector Nat 2).push_front 3).get 0 = some 3 ∧
    ((⟨⟨[4], [5]⟩⟩ : flex_vector Nat 2).push_front 3).get 1 =
      (⟨⟨[4], [5]⟩⟩ : flex_vector Nat 2).get 0 := by
  have h := C6_push_front_spec (⟨⟨[4], [5]⟩⟩ : flex_vector Nat 2) 3
  exact ⟨h.2.1, h.2.2.1, h.2.2.2 0 (by decide)⟩

/-- C7: take and drop are total and clamp at the size: for every
flex_vector V and every n, V.take n has size min n V.size with element i
equal to the element of V at i for all i below that size, and V.drop n
has size V.size - min n V.size with element i equal to the element of V
at min n V.size + i. -/
theorem C7_take_drop_clamp (V : flex_vector α L) (n : Nat) :
    (V.take n).size = min n V.size ∧
    (∀ i : Nat, i < min n V.size → (V.take n).get i = V.get i) ∧
    (V.drop n).size = V.size - min n V.size ∧
    ∀ i : Nat, (V.drop n).get i = V.get (min n V.size + i) := by
  refine ⟨?_, ?_, ?_, ?_⟩
  · rw [size_eq, elems_take, List.length_take, size_eq]
  · intro i hi
    rw [get_eq, get_eq, elems_take,
        List.getElem?_take_of_lt (Nat.lt_of_lt_of_le hi (Nat.min_le_left _ _))]
  · rw [size_eq, elems_drop, List.length_drop, size_eq]
    omega
  · intro i
    rw [get_eq, get_eq, elems_drop, List.getElem?_drop]
    by_cases h : n ≤ V.size
    · rw [Nat.min_eq_left h]
    · have hs : V.elems.length ≤ n + i := by
        rw [← size_eq]; omega
      have hs2 : V.elems.length ≤ min n V.size + i := by
        rw [← size_eq]; omega
      rw [List.getElem?_eq_none hs, List.getElem?_eq_none hs2]

/-- Witness for C7 at the concrete vector with elements 1, 2, 3 and
n = 5, beyond the size. -/
theorem C7_take_drop_clamp_witness :
    ((⟨⟨[1, 2], [3]⟩⟩ : flex_vector Nat 2).take 5).size = 3 ∧
    ((⟨⟨[1, 2], [3]⟩⟩ : flex_vector Nat 2).take 5).get 1 =
      (⟨⟨[1, 2], [3]⟩⟩ : flex_vector Nat 2).get 1 ∧
    ((⟨⟨[1, 2], [3]⟩⟩ : flex_vector Nat 2).drop 5).size = 0 ∧
    ((⟨⟨[1, 2], [3]⟩⟩ : flex_vector Nat 2).drop 5).get 0 =
      (⟨⟨[1, 2], [3]⟩⟩ : flex_vector Nat 2).get 3 := by
  have h := C7_take_drop_clamp (⟨⟨[1, 2], [3]⟩⟩ : flex_vector Nat 2) 5
  exact ⟨h.1, h.2.1 1 (by decide), h.2.2.1, h.2.2.2 0⟩

/-- C8: for every flex_vector A and value x, B = A.push_back x satisfies
B.size = A.size + 1, the element of B at index A.size is x, and B agrees
with A at every index j < A.size; in particular, starting from the empty
vector and pushing the values 1 to 1000 yields size 1000 and element 501
at index 500. -/
theorem C8_push_back_spec (A : flex_vector α L) (x : α) :
    ((A.push_back x).size = A.size + 1 ∧
     (A.push_back x).get A.size = some x ∧
     ∀ j : Nat, j < A.size → (A.push_back x).get j = A.get j) ∧
    (((List.range' 1 1000).foldl push_back (emptyVec : flex_vector Nat L)).size
        = 1000 ∧
     ((List.range' 1 1000).foldl push_back (emptyVec : flex_vector Nat L)).get 500
        = some 501) := by
  have hsc : ((List.range' 1 1000).foldl push_back
      (emptyVec : flex_vector Nat L)).elems = List.range' 1 1000 := by
    rw [elems_foldl_push_back, elems_emptyVec, List.nil_append]
  refine ⟨⟨?_, ?_, ?_⟩, ?_, ?_⟩
  · rw [size_eq, size_eq, elems_push_back, List.length_append]; rfl
  · rw [get_eq, elems_push_back, size_eq,
        List.getElem?_append_right (Nat.le_refl _), Nat.sub_self]
    rfl
  · intro j hj
    rw [get_eq, get_eq, elems_push_back,
        List.getElem?_append_left (by rw [← size_eq]; exact hj)]
  · rw [size_eq, hsc, List.length_range']
  · rw [get_eq, hsc, List.getElem?_range' 1 1 (by omega)]

/-- Witness for C8 at the concrete vector with elements 8, 9 and pushed
value 7. -/
theorem C8_push_back_spec_witness :
    ((⟨⟨[8], [9]⟩⟩ : flex_vector Nat 2).push_back 7).size = 3 ∧
    ((⟨⟨[8], [9]⟩⟩ : flex_vector Nat 2).push_back 7).get 2 = some 7 ∧
    ((⟨⟨[8], [9]⟩⟩ : flex_vector Nat 2).push_back 7).get 0 =
      (⟨⟨[8], [9]⟩⟩ : flex_vector Nat 2).get 0 ∧
    ((List.range' 1 1000).foldl push_back (emptyVec : flex_vector Nat 2)).get 500
      = some 501 := by
  have h := C8_push_back_spec (⟨⟨[8], [9]⟩⟩ : flex_vector Nat 2) 7
  exact ⟨h.1.1, h.1.2.1, h.1.2.2 0 (by decide), h.2.2⟩

/-- C10: a default-constructed flex_vector has size 0, and for every
flex_vector V, V.empty returns true exactly when V.size = 0. -/
theorem C10_default_empty (V : flex_vector α L) :
    (emptyVec : flex_vector α L).size = 0 ∧
    (V.empty = true ↔ V.size = 0) := by
  constructor
  · rfl
  · simp [flex_vector.empty, flex_vector.size]

end Claims

end Immer
